import Mathlib

/-!
Verification of the audio-quality metrics engine (metrics.py, analysis.py).

Sample buffers are modelled as lists of exact rationals (IEEE doubles are
rationals; the float literals 1e-12, 0.05, 0.5 are modelled by their decimal
values), and dB/log computations land in the real numbers.  Fallible Python
code is modelled with Except (exceptions) and Option (None results); the
float special values produced by numpy on degenerate input are modelled by
the inductive type Fl below.
-/

namespace AudioQA

set_option maxHeartbeats 1000000
set_option linter.unusedVariables false

/-- The guard constant 1e-12 used throughout metrics.py. -/
def epsQ : ℚ := 1 / 10 ^ 12

/-- The same guard constant viewed in the reals. -/
noncomputable def epsR : ℝ := (epsQ : ℝ)

/-- np.mean of a rational list (mean of the empty list is only ever taken on
nonempty slices in the embedded code paths). -/
def qmean (l : List ℚ) : ℚ := l.sum / l.length

/-- np.max(np.abs(x)).  The fold with base 0 agrees with the numpy maximum on
every nonempty list since all mapped values are nonnegative; on the empty
list numpy raises instead, which the callers model separately. -/
def maxAbs (l : List ℚ) : ℚ := (l.map (fun a => |a|)).foldr max 0

/-- np.mean(np.square(x)): mean square power of a buffer slice. -/
def msq (l : List ℚ) : ℚ := qmean (l.map (fun a => a ^ 2))

/-- np.sort of a rational list.  Any comparison sort yields the same value
list, so insertion sort is used as the model. -/
def sortQ (l : List ℚ) : List ℚ := List.insertionSort (· ≤ ·) l

/-- np.percentile(l, q) with the default linear-interpolation rule: with the
sorted data s and position pos = q*(n-1)/100, the result is
s[floor(pos)] + (pos - floor(pos)) * (s[floor(pos)+1] - s[floor(pos)]).
Since q is a natural number here, floor(pos) is the natural division
q*(n-1)/100. -/
def npPercentile (l : List ℚ) (q : ℕ) : ℚ :=
  let s := sortQ l
  let m := q * (l.length - 1)
  let lo := m / 100
  let frac : ℚ := (m : ℚ) / 100 - (lo : ℚ)
  s.getD lo 0 + frac * (s.getD (lo + 1) 0 - s.getD lo 0)

/-! ## Level metrics (metrics.py lines 10-21) -/

/-- The value 20*log10(max|y| + 1e-12) computed by peak_dbfs on nonempty
input. -/
noncomputable def pkVal (y : List ℚ) : ℝ := 20 * Real.logb 10 ((maxAbs y : ℝ) + epsR)

/-- The value 20*log10(sqrt(mean(y^2)) + 1e-12) computed by rms_dbfs on
nonempty input. -/
noncomputable def rmsVal (y : List ℚ) : ℝ :=
  20 * Real.logb 10 (Real.sqrt ((msq y : ℝ)) + epsR)

/-- A Python exception value (the payload is irrelevant to the claims; codes
distinguish distinct exception sources). -/
structure PyErr where
  code : ℕ
deriving DecidableEq

/-- The ValueError raised by np.max on a zero-length array. -/
def valueError : PyErr := ⟨0⟩

/-- peak_dbfs (metrics.py line 15).  On a zero-length buffer np.max raises
ValueError; otherwise the result is 20*log10(max|y| + 1e-12). -/
noncomputable def peak_dbfs (y : List ℚ) : Except PyErr ℝ :=
  if y.length = 0 then .error valueError else .ok (pkVal y)

/-- A Python float result: either an ordinary (finite) value, or one of the
IEEE special values NaN and signed infinity. -/
inductive Fl where
  | fin (x : ℝ)
  | nan
  | pinf
  | ninf

/-- math.isfinite on a float result. -/
def Fl.isFinite : Fl → Bool
  | .fin _ => true
  | _ => false

/-- The finite value of a float result, if any. -/
def Fl.toReal? : Fl → Option ℝ
  | .fin x => some x
  | _ => none

/-- rms_dbfs (metrics.py line 10).  On a zero-length buffer np.mean yields
NaN, which propagates through sqrt, the addition of 1e-12 and log10;
otherwise the result is the finite value 20*log10(sqrt(mean(y^2)) + 1e-12). -/
noncomputable def rms_dbfs (y : List ℚ) : Fl :=
  if y.length = 0 then .nan else .fin (rmsVal y)

/-- crest_db (metrics.py line 20). -/
def crest_db (peak_db rms_db : ℝ) : ℝ := peak_db - rms_db

/-- Amplitude scaling of a buffer by a factor k (the operation quantified
over by the gain-invariance property of the spec). -/
def qscale (k : ℚ) (y : List ℚ) : List ℚ := y.map fun a => k * a

/-! ## SNR estimator, time-domain percentile path (metrics.py lines 39-58) -/

/-- The per-frame mean-square energies: frame length is int(0.05*sr) clamped
to at least 1 (the float product int(0.05*sr) equals the natural division
sr/20 for every sample rate), and the final frame may be shorter. -/
def frameEnergies (y : List ℚ) (sr : ℕ) : List ℚ :=
  let f := max 1 (sr / 20)
  (List.range ((y.length + f - 1) / f)).map fun i => msq ((y.drop (i * f)).take f)

/-- frames = frames[frames > 0]: the surviving frames of nonzero (hence
positive) energy. -/
def posFrames (y : List ℚ) (sr : ℕ) : List ℚ :=
  (frameEnergies y sr).filter fun e => decide (0 < e)

/-- The branch condition of the time-domain percentile method: at least 10
surviving frames, dynamic range of at least 6 dB, and at least 5 frames in
each percentile tail.  The source tests 10*log10((p90+1e-12)/(p10+1e-12)) >= 6;
this is equivalent to the rational inequality
1000*(p10+1e-12)^5 <= (p90+1e-12)^5 used here (lemmas dyn_iff and timeGate_iff below),
which keeps the gate decidable. -/
def timeGate (y : List ℚ) (sr : ℕ) : Bool :=
  let F := posFrames y sr
  decide (10 ≤ F.length) &&
  decide (1000 * (npPercentile F 10 + epsQ) ^ 5 ≤ (npPercentile F 90 + epsQ) ^ 5) &&
  decide (5 ≤ F.countP fun e => decide (e ≤ npPercentile F 20)) &&
  decide (5 ≤ F.countP fun e => decide (npPercentile F 80 ≤ e))

/-- The ratio (mean(frames >= p80) + 1e-12) / (mean(frames <= p20) + 1e-12)
whose 10*log10 the time-domain path returns. -/
def snrTimeArg (y : List ℚ) (sr : ℕ) : ℚ :=
  let F := posFrames y sr
  (qmean (F.filter fun e => decide (npPercentile F 80 ≤ e)) + epsQ) /
  (qmean (F.filter fun e => decide (e ≤ npPercentile F 20)) + epsQ)

/-! ## SNR estimator, spectral fallback (metrics.py lines 60-78) -/

/-- nfft = 1 << int(floor(log2(min(n, 262144)))): the largest power of two
not exceeding min(n, 262144), for n >= 1. -/
def nfftOf (n : ℕ) : ℕ := 2 ^ Nat.log2 (min n 262144)

/-- np.hanning(M) at index j: 0.5 - 0.5*cos(2*pi*j/(M-1)).  (numpy special
cases M = 1; the embedded code only evaluates the window for M >= 4096.) -/
noncomputable def hannW (M : ℕ) (j : ℕ) : ℝ :=
  1 / 2 - 1 / 2 * Real.cos (2 * Real.pi * j / ((M : ℝ) - 1))

/-- Bin k of np.fft.rfft(x*w) where x is the first n samples of the buffer
and w the Hann window. -/
noncomputable def rfftBin (y : List ℚ) (n : ℕ) (k : ℕ) : ℂ :=
  ∑ j ∈ Finset.range n,
    ((((y.getD j 0 : ℝ) * hannW n j : ℝ)) : ℂ) *
      Complex.exp (-(2 * Real.pi * j * k / n) * Complex.I)

/-- The power spectrum list psd of length nfft/2 + 1, normalised by
sum(w^2) + 1e-12, with the DC bin zeroed (psd[0] = 0). -/
noncomputable def psdListOf (y : List ℚ) : List ℝ :=
  let n := nfftOf y.length
  let wss := (∑ j ∈ Finset.range n, hannW n j ^ 2) + epsR
  (List.range (n / 2 + 1)).map fun k =>
    if k = 0 then 0 else ((rfftBin y n k).re ^ 2 + (rfftBin y n k).im ^ 2) / wss

open Classical in
/-- np.argmax: the first index attaining the maximum of the list.  The fold
with base 0 is the true maximum here because all psd entries are
nonnegative. -/
noncomputable def argmaxIdx (l : List ℝ) : ℕ :=
  l.findIdx fun x => decide (l.foldr max 0 ≤ x)

open Classical in
/-- np.median: the middle element of the sorted data, or the average of the
two middle elements for even length. -/
noncomputable def npMedian (l : List ℝ) : ℝ :=
  let s := List.insertionSort (· ≤ ·) l
  if l.length % 2 = 1 then s.getD (l.length / 2) 0
  else (s.getD (l.length / 2 - 1) 0 + s.getD (l.length / 2) 0) / 2

/-- psd[max(1, pk-1) : pk+2].sum(): the power in the peak bin and its
immediate neighbours, the slice being clipped below at bin 1 and above at
the end of the list. -/
def spectralSig (L : List ℝ) (pk : ℕ) : ℝ :=
  ((L.drop (max 1 (pk - 1))).take (pk + 2 - max 1 (pk - 1))).sum

open Classical in
/-- The spectral fallback of snr_db (metrics.py lines 60-78): NA when nfft
falls below 4096, or when the non-DC median is nonpositive or the peak bin
fails the 20x-median prominence test; otherwise
10*log10(sig/(total - sig + 1e-12)). -/
noncomputable def snrSpectral (y : List ℚ) : Option ℝ :=
  if nfftOf y.length < 4096 then none
  else
    let L := psdListOf y
    let pk := argmaxIdx L
    let med := npMedian (L.drop 1)
    if med ≤ 0 ∨ L.getD pk 0 < 20 * med then none
    else some (10 * Real.logb 10 (spectralSig L pk / (L.sum - spectralSig L pk + epsR)))

/-- snr_db (metrics.py line 29).  The guard int(0.5*sr) equals the natural
division sr/2 (0.5 is exact in binary floating point). -/
noncomputable def snr_db (y : List ℚ) (sr : ℕ) : Option ℝ :=
  if y.length < sr / 2 then none
  else if timeGate y sr then some (10 * Real.logb 10 ((snrTimeArg y sr : ℝ)))
  else snrSpectral y

/-! ## True peak (metrics.py lines 122-136) -/

/-- One point of np.interp over the grid t = 0, 1, ..., len(x)-1: linear
interpolation between the neighbouring samples, evaluated at t in
[0, len(x)-1]. -/
def interpAt (x : List ℚ) (t : ℚ) : ℚ :=
  let j := (Int.floor t).toNat
  x.getD j 0 + (t - (j : ℚ)) * (x.getD (j + 1) 0 - x.getD j 0)

/-- np.interp(np.linspace(0, n-1, n*os), np.arange(n), x): the linearly
interpolated signal on the os-times denser grid. -/
def upsampled (x : List ℚ) (os : ℕ) : List ℚ :=
  (List.range (x.length * os)).map fun i =>
    interpAt x ((i : ℚ) * ((x.length : ℚ) - 1) / ((x.length : ℚ) * (os : ℚ) - 1))

/-- The linear peak computed by true_peak_dbfs: the sample-domain peak,
maximised with the oversampled peak when os_factor > 1 and the buffer has
more than one sample. -/
def truePeakLin (x : List ℚ) (os : ℕ) : ℚ :=
  let p := maxAbs x
  if 1 < os ∧ 1 < x.length then max p (maxAbs (upsampled x os)) else p

/-- true_peak_dbfs (metrics.py line 122): NA on an empty buffer and on a
nonpositive peak, otherwise 20*log10(peak).  The math.isfinite check of the
source is always true over exact rationals. -/
noncomputable def true_peak_dbfs (y : List ℚ) (sr : ℕ) (os : ℕ) : Option ℝ :=
  if y.length = 0 then none
  else if truePeakLin y os ≤ 0 then none
  else some (20 * Real.logb 10 ((truePeakLin y os : ℝ)))

/-! ## R128 loudness (metrics.py lines 82-118) and analyze_file
(analysis.py lines 20-70)

The BS.1770 meter itself lives in the external pyloudnorm package, outside
this repository; r128_loudness_and_lra is therefore embedded as a function
of the outcome of the four meter calls on the given buffer: each call either
raises or returns float data (possibly NaN/infinite). -/

/-- The outcomes of the four pyloudnorm meter calls on a fixed buffer. -/
structure MeterOut where
  integrated : Except PyErr Fl
  shortterm : Except PyErr (List Fl)
  momentary : Except PyErr (List Fl)
  lrange : Except PyErr Fl

open Classical in
/-- np.percentile over real data (same linear-interpolation rule as
npPercentile). -/
noncomputable def rPercentile (l : List ℝ) (q : ℕ) : ℝ :=
  let s := List.insertionSort (· ≤ ·) l
  let m := q * (l.length - 1)
  let lo := m / 100
  let frac : ℝ := (m : ℝ) / 100 - (lo : ℝ)
  s.getD lo 0 + frac * (s.getD (lo + 1) 0 - s.getD lo 0)

/-- The helper _p95 of r128_loudness_and_lra: keep the finite entries of the
series and return their 95th percentile, or None when no finite entry
remains. -/
noncomputable def p95 (series : List Fl) : Option ℝ :=
  let f := series.filterMap Fl.toReal?
  if f.isEmpty then none else some (rPercentile f 95)

/-- r128_loudness_and_lra (metrics.py line 82): the integrated-loudness call
is not guarded, so its exception propagates; the short-term, momentary and
range computations are each wrapped in try/except and degrade to None, and a
non-finite loudness range is also converted to None. -/
noncomputable def r128_loudness_and_lra (m : MeterOut) :
    Except PyErr (Fl × Option ℝ × Option ℝ × Option ℝ) :=
  match m.integrated with
  | .error e => .error e
  | .ok Li =>
    let Ls : Option ℝ := match m.shortterm with
      | .error _ => none
      | .ok s => p95 s
    let Lm : Option ℝ := match m.momentary with
      | .error _ => none
      | .ok s => p95 s
    let LRA : Option ℝ := match m.lrange with
      | .error _ => none
      | .ok v => v.toReal?
    .ok (Li, Ls, Lm, LRA)

/-- The flat metrics record built by analyze_file for the primary mono
buffer (fields irrelevant to the claims, such as the file name and the
optional multi-channel data, are omitted; the multi-channel block is wrapped
in its own try/except and cannot raise). -/
structure Row where
  peak : ℝ
  true_peak : Option ℝ
  rms : ℝ
  crest : ℝ
  lufs : Fl
  lufs_s : Option ℝ
  lufs_m : Option ℝ
  lra : Option ℝ
  snr : Option ℝ

/-- analyze_file (analysis.py line 20) on the primary mono buffer, as a
function of the buffer, the sample rate and the meter outcomes: peak_dbfs
raises on an empty buffer, r128_loudness_and_lra may raise (only from the
integrated-loudness call), and every other metric is total.  The try/except
around true_peak_dbfs never fires in the model because that function is
total. -/
noncomputable def analyze_file (y : List ℚ) (sr : ℕ) (m : MeterOut) : Except PyErr Row :=
  if y.length = 0 then .error valueError
  else
    match r128_loudness_and_lra m with
    | .error e => .error e
    | .ok (Li, Ls, Lm, LRA) =>
      .ok { peak := pkVal y
            true_peak := true_peak_dbfs y sr 4
            rms := rmsVal y
            crest := crest_db (pkVal y) (rmsVal y)
            lufs := Li
            lufs_s := Ls
            lufs_m := Lm
            lra := LRA
            snr := snr_db y sr }

/-- Modelled from the spec: the BS.1770 gated loudness meter (pyloudnorm,
not part of this repository) "always computed, may be very negative for
near-silent input but must remain finite for silence handled by the
underlying gating" - its integrated-loudness call returns a finite float
without raising. -/
def MeterSpec (m : MeterOut) : Prop := ∃ x : ℝ, m.integrated = .ok (.fin x)

/-! ## Per-channel silence detection (metrics.py lines 181-188) -/

/-- The silence test of per_channel_metrics on one channel:
rms_dbfs(ch) < -80 or peak_dbfs(ch) < -60.  Over exact rationals
20*log10(sqrt(ms)+1e-12) < -80 iff ms < (1e-4 - 1e-12)^2, and
20*log10(max|ch|+1e-12) < -60 iff max|ch| < 1e-3 - 1e-12, which keeps the
test decidable; lemma silentTest_iff certifies the equivalence with the dB
formulation of the source. -/
def silentTest (ch : List ℚ) : Bool :=
  decide (msq ch < (1 / 10 ^ 4 - epsQ) ^ 2) || decide (maxAbs ch < 1 / 10 ^ 3 - epsQ)

/-- The silent_channels list built by per_channel_metrics: the channel
indices (in iteration order) whose row passes the silence test.  Channels
are presented channel-major, as the per-channel rows extract them. -/
def silent_channels (chs : List (List ℚ)) : List ℕ :=
  (List.range chs.length).filter fun i => silentTest (chs.getD i [])

/-! ## Spec-side renderings and concrete data used by the claims -/

/-- The decision rule of the time-domain percentile path exactly as the spec
states it: at least 10 surviving frames, dynamic range of at least 6 dB
between the 90th and 10th energy percentiles, and at least 5 frames at or
below the 20th percentile and at or above the 80th. -/
noncomputable def TimeConds (y : List ℚ) (sr : ℕ) : Prop :=
  let F := posFrames y sr
  10 ≤ F.length ∧
  6 ≤ 10 * Real.logb 10 (((npPercentile F 90 : ℝ) + epsR) / ((npPercentile F 10 : ℝ) + epsR)) ∧
  5 ≤ F.countP (fun e => decide (e ≤ npPercentile F 20)) ∧
  5 ≤ F.countP (fun e => decide (npPercentile F 80 ≤ e))

/-- A ten-sample buffer whose 50 ms frames (at sr = 20, one sample per
frame) have energies 1,1,1,1,1,4,4,4,4,4: it satisfies every condition of
the time-domain percentile path. -/
def y0 : List ℚ := [1, 1, 1, 1, 1, 2, 2, 2, 2, 2]

/-- A two-channel buffer with a silent first channel and a non-silent
second channel. -/
def chs0 : List (List ℚ) := [[0], [1/2]]

/-- Meter outcomes in which the integrated-loudness call succeeds and the
other three calls raise. -/
def mA : MeterOut :=
  { integrated := .ok (.fin (-23))
    shortterm := .error ⟨1⟩
    momentary := .error ⟨2⟩
    lrange := .error ⟨3⟩ }

/-- Meter outcomes in which the integrated-loudness call raises. -/
def mB : MeterOut :=
  { integrated := .error ⟨7⟩
    shortterm := .ok []
    momentary := .ok []
    lrange := .ok (.fin 0) }

/-! ## Sorting, percentile and mean lemmas -/

theorem sortQ_sorted (l : List ℚ) : (sortQ l).Sorted (· ≤ ·) :=
  List.sorted_insertionSort _ l

theorem sortQ_perm (l : List ℚ) : List.Perm (sortQ l) l :=
  List.perm_insertionSort _ l

theorem sortQ_length (l : List ℚ) : (sortQ l).length = l.length :=
  (sortQ_perm l).length_eq

theorem getD_eq_get (s : List ℚ) (i : ℕ) (h : i < s.length) :
    s.getD i 0 = s.get ⟨i, h⟩ := by
  rw [List.getD_eq_getElem?_getD, List.getElem?_eq_getElem h]
  simp [List.get_eq_getElem]

theorem getD_nonneg {s : List ℚ} (h : ∀ x ∈ s, 0 ≤ x) (i : ℕ) : 0 ≤ s.getD i 0 := by
  by_cases hi : i < s.length
  · rw [getD_eq_get s i hi]
    exact h _ (s.get_mem _ _)
  · rw [List.getD_eq_default _ _ (le_of_not_lt hi)]

theorem getD_mono_of_sorted {s : List ℚ} (hs : s.Sorted (· ≤ ·)) {i j : ℕ}
    (hij : i ≤ j) (hj : j < s.length) : s.getD i 0 ≤ s.getD j 0 := by
  have hi : i < s.length := lt_of_le_of_lt hij hj
  rw [getD_eq_get s i hi, getD_eq_get s j hj]
  rcases eq_or_lt_of_le hij with h | h
  · subst h
    exact le_refl _
  · exact hs.rel_get_of_lt h

theorem natFrac_eq (m : ℕ) :
    (m : ℚ) / 100 - ((m / 100 : ℕ) : ℚ) = ((m % 100 : ℕ) : ℚ) / 100 := by
  have h : (m : ℚ) = 100 * ((m / 100 : ℕ) : ℚ) + ((m % 100 : ℕ) : ℚ) := by
    exact_mod_cast (Nat.div_add_mod m 100).symm
  rw [h]
  ring

theorem natFrac_nonneg (m : ℕ) : 0 ≤ (m : ℚ) / 100 - ((m / 100 : ℕ) : ℚ) := by
  rw [natFrac_eq]
  positivity

theorem natFrac_lt_one (m : ℕ) : (m : ℚ) / 100 - ((m / 100 : ℕ) : ℚ) < 1 := by
  rw [natFrac_eq]
  have h : m % 100 < 100 := Nat.mod_lt _ (by norm_num)
  have h2 : ((m % 100 : ℕ) : ℚ) < 100 := by exact_mod_cast h
  linarith

theorem npPercentile_nonneg {l : List ℚ} (h : ∀ x ∈ l, 0 ≤ x) (q : ℕ) :
    0 ≤ npPercentile l q := by
  unfold npPercentile
  have hsx : ∀ x ∈ sortQ l, 0 ≤ x := fun x hx => h x ((sortQ_perm l).mem_iff.mp hx)
  have h0 := natFrac_nonneg (q * (l.length - 1))
  have h1 := natFrac_lt_one (q * (l.length - 1))
  have ha := getD_nonneg hsx (q * (l.length - 1) / 100)
  have hb := getD_nonneg hsx (q * (l.length - 1) / 100 + 1)
  nlinarith

theorem interpNat_mono {s : List ℚ} (hs : s.Sorted (· ≤ ·)) {m₁ m₂ : ℕ}
    (hm12 : m₁ ≤ m₂) (hm2 : m₂ ≤ 100 * (s.length - 1)) (hn : 1 ≤ s.length) :
    s.getD (m₁ / 100) 0 +
        ((m₁ % 100 : ℕ) : ℚ) / 100 * (s.getD (m₁ / 100 + 1) 0 - s.getD (m₁ / 100) 0) ≤
      s.getD (m₂ / 100) 0 +
        ((m₂ % 100 : ℕ) : ℚ) / 100 * (s.getD (m₂ / 100 + 1) 0 - s.getD (m₂ / 100) 0) := by
  have hlo12 : m₁ / 100 ≤ m₂ / 100 := Nat.div_le_div_right hm12
  have hlo2 : m₂ / 100 ≤ s.length - 1 := by omega
  rcases eq_or_lt_of_le hlo12 with hL | hL
  · rw [← hL]
    rcases eq_or_lt_of_le hlo2 with htop | hlt
    · -- the top cell: both fractional parts vanish
      have hz₂ : m₂ % 100 = 0 := by omega
      have hz₁ : m₁ % 100 = 0 := by omega
      rw [hz₁, hz₂]
    · -- an interior cell: the fractional part grows along a rising segment
      have hrr : m₁ % 100 ≤ m₂ % 100 := by omega
      have hrrQ : ((m₁ % 100 : ℕ) : ℚ) ≤ ((m₂ % 100 : ℕ) : ℚ) := by exact_mod_cast hrr
      have hba : s.getD (m₁ / 100) 0 ≤ s.getD (m₁ / 100 + 1) 0 := by
        apply getD_mono_of_sorted hs (Nat.le_succ _)
        omega
      rw [← hL] at hlt
      nlinarith [hrrQ, hba]
  · -- distinct cells: chain through the cell boundaries
    have h1n : m₁ / 100 + 1 < s.length := by omega
    have h2n : m₂ / 100 < s.length := by omega
    have hba₁ : s.getD (m₁ / 100) 0 ≤ s.getD (m₁ / 100 + 1) 0 :=
      getD_mono_of_sorted hs (Nat.le_succ _) h1n
    have hfrlt : ((m₁ % 100 : ℕ) : ℚ) / 100 < 1 := by
      have h : ((m₁ % 100 : ℕ) : ℚ) < 100 := by exact_mod_cast Nat.mod_lt m₁ (by norm_num)
      linarith
    have hfrge : (0:ℚ) ≤ ((m₁ % 100 : ℕ) : ℚ) / 100 := by positivity
    have step1 : s.getD (m₁ / 100) 0 +
        ((m₁ % 100 : ℕ) : ℚ) / 100 * (s.getD (m₁ / 100 + 1) 0 - s.getD (m₁ / 100) 0)
        ≤ s.getD (m₁ / 100 + 1) 0 := by nlinarith
    have step2 : s.getD (m₁ / 100 + 1) 0 ≤ s.getD (m₂ / 100) 0 :=
      getD_mono_of_sorted hs (by omega) h2n
    have step3 : s.getD (m₂ / 100) 0
        ≤ s.getD (m₂ / 100) 0 +
          ((m₂ % 100 : ℕ) : ℚ) / 100 * (s.getD (m₂ / 100 + 1) 0 - s.getD (m₂ / 100) 0) := by
      rcases eq_or_lt_of_le hlo2 with htop | hlt
      · have hz₂ : m₂ % 100 = 0 := by omega
        rw [hz₂]
        norm_num
      · have hba₂ : s.getD (m₂ / 100) 0 ≤ s.getD (m₂ / 100 + 1) 0 := by
          apply getD_mono_of_sorted hs (Nat.le_succ _)
          omega
        have hnn : (0:ℚ) ≤ ((m₂ % 100 : ℕ) : ℚ) / 100 := by positivity
        nlinarith
    linarith

theorem npPercentile_mono {l : List ℚ} (hl : l ≠ []) {q₁ q₂ : ℕ}
    (h12 : q₁ ≤ q₂) (h100 : q₂ ≤ 100) : npPercentile l q₁ ≤ npPercentile l q₂ := by
  have hn : 1 ≤ l.length := List.length_pos.mpr hl
  simp only [npPercentile]
  rw [natFrac_eq (q₁ * (l.length - 1)), natFrac_eq (q₂ * (l.length - 1))]
  apply interpNat_mono (sortQ_sorted l)
  · exact Nat.mul_le_mul_right _ h12
  · rw [sortQ_length]
    exact Nat.mul_le_mul_right _ h100
  · rw [sortQ_length]
    exact hn

theorem le_qmean {l : List ℚ} (hl : l ≠ []) {a : ℚ} (h : ∀ x ∈ l, a ≤ x) :
    a ≤ qmean l := by
  have hsum : l.length • a ≤ l.sum := List.card_nsmul_le_sum l a h
  have hlen : (0:ℚ) < l.length := by
    have := List.length_pos.mpr hl
    exact_mod_cast this
  rw [nsmul_eq_mul] at hsum
  rw [qmean, le_div_iff₀ hlen]
  linarith

theorem qmean_le {l : List ℚ} (hl : l ≠ []) {a : ℚ} (h : ∀ x ∈ l, x ≤ a) :
    qmean l ≤ a := by
  have hsum : l.sum ≤ l.length • a := List.sum_le_card_nsmul l a h
  have hlen : (0:ℚ) < l.length := by
    have := List.length_pos.mpr hl
    exact_mod_cast this
  rw [nsmul_eq_mul] at hsum
  rw [qmean, div_le_iff₀ hlen]
  linarith

theorem qmean_nonneg {l : List ℚ} (h : ∀ x ∈ l, 0 ≤ x) : 0 ≤ qmean l := by
  rcases eq_or_ne l [] with rfl | hl
  · simp [qmean]
  · exact le_qmean hl h

theorem msq_nonneg (l : List ℚ) : 0 ≤ msq l := by
  apply qmean_nonneg
  intro x hx
  obtain ⟨a, _, rfl⟩ := List.mem_map.mp hx
  positivity

theorem foldr_max_nonneg (l : List ℚ) : 0 ≤ l.foldr max 0 := by
  induction l with
  | nil => exact le_refl 0
  | cons a t ih => exact le_trans ih (le_max_right a _)

theorem maxAbs_nonneg (l : List ℚ) : 0 ≤ maxAbs l :=
  foldr_max_nonneg _

theorem abs_le_maxAbs {l : List ℚ} {x : ℚ} (hx : x ∈ l) : |x| ≤ maxAbs l := by
  unfold maxAbs
  induction l with
  | nil => cases hx
  | cons a t ih =>
    rcases List.mem_cons.mp hx with rfl | hx
    · exact le_max_left _ _
    · exact le_trans (ih hx) (le_max_right _ _)

theorem posFrames_pos {y : List ℚ} {sr : ℕ} {e : ℚ} (he : e ∈ posFrames y sr) :
    0 < e :=
  of_decide_eq_true (List.mem_filter.mp he).2

theorem epsQ_pos : 0 < epsQ := by
  unfold epsQ
  norm_num

theorem epsR_pos : 0 < epsR := by
  unfold epsR epsQ
  rw [Rat.cast_pos]
  norm_num

/-! ## The dB bridges: the decidable rational tests used in the embedded
definitions are equivalent to the logarithmic tests written in the source -/

theorem dyn_iff {a b : ℝ} (ha : 0 < a) (hb : 0 < b) :
    1000 * a ^ 5 ≤ b ^ 5 ↔ 6 ≤ 10 * Real.logb 10 (b / a) := by
  have hba : 0 < b / a := div_pos hb ha
  have key : ((10:ℝ) ^ ((3:ℝ) / 5)) ^ (5:ℕ) = 1000 := by
    rw [← Real.rpow_natCast ((10:ℝ) ^ ((3:ℝ) / 5)) 5, ← Real.rpow_mul (by norm_num)]
    norm_num
  constructor
  · intro h
    have h5 : (10:ℝ) ^ ((3:ℝ) / 5) ≤ b / a := by
      apply le_of_pow_le_pow_left₀ (n := 5) (by norm_num) (le_of_lt hba)
      rw [key, div_pow, le_div_iff₀ (by positivity)]
      linarith
    have := (Real.le_logb_iff_rpow_le (by norm_num) hba).mpr h5
    linarith
  · intro h
    have h35 : (3:ℝ) / 5 ≤ Real.logb 10 (b / a) := by linarith
    have h5 : (10:ℝ) ^ ((3:ℝ) / 5) ≤ b / a :=
      (Real.le_logb_iff_rpow_le (by norm_num) hba).mp h35
    have hp : ((10:ℝ) ^ ((3:ℝ) / 5)) ^ (5:ℕ) ≤ (b / a) ^ (5:ℕ) :=
      pow_le_pow_left₀ (by positivity) h5 5
    rw [key, div_pow, le_div_iff₀ (by positivity)] at hp
    linarith

theorem rmsVal_lt_iff (ch : List ℚ) : msq ch < (1 / 10 ^ 4 - epsQ) ^ 2 ↔ rmsVal ch < -80 := by
  have hsq : (0:ℝ) ≤ Real.sqrt ((msq ch : ℝ)) := Real.sqrt_nonneg _
  have hx : (0:ℝ) < Real.sqrt ((msq ch : ℝ)) + epsR := by linarith [epsR_pos]
  have hc : ((10:ℝ) : ℝ) ^ (-4 : ℝ) = 1 / 10 ^ 4 := by
    rw [Real.rpow_neg (by norm_num), ← Real.rpow_natCast 10 4]
    norm_num
  constructor
  · intro h
    have hQ : ((msq ch : ℝ)) < (((1 / 10 ^ 4 - epsQ : ℚ)) : ℝ) ^ 2 := by
      have := (Rat.cast_lt (K := ℝ)).mpr h
      push_cast at this ⊢
      convert this using 2
    have hcast : (((1 / 10 ^ 4 - epsQ : ℚ)) : ℝ) = 1 / 10 ^ 4 - epsR := by
      unfold epsR
      push_cast
      ring
    rw [hcast] at hQ
    have hcpos : (0:ℝ) < 1 / 10 ^ 4 - epsR := by
      unfold epsR epsQ
      push_cast
      norm_num
    have hs : Real.sqrt ((msq ch : ℝ)) < 1 / 10 ^ 4 - epsR :=
      (Real.sqrt_lt' hcpos).mpr hQ
    have hlt : Real.sqrt ((msq ch : ℝ)) + epsR < (10:ℝ) ^ (-4 : ℝ) := by
      rw [hc]
      linarith
    have := (Real.logb_lt_iff_lt_rpow (by norm_num) hx).mpr hlt
    unfold rmsVal
    linarith
  · intro h
    unfold rmsVal at h
    have hlog : Real.logb 10 (Real.sqrt ((msq ch : ℝ)) + epsR) < -4 := by linarith
    have hlt := (Real.logb_lt_iff_lt_rpow (by norm_num) hx).mp hlog
    rw [hc] at hlt
    have hs : Real.sqrt ((msq ch : ℝ)) < 1 / 10 ^ 4 - epsR := by linarith
    have hcpos : (0:ℝ) < 1 / 10 ^ 4 - epsR := lt_of_le_of_lt hsq hs
    have hQ : ((msq ch : ℝ)) < (1 / 10 ^ 4 - epsR) ^ 2 := (Real.sqrt_lt' hcpos).mp hs
    have hcast : (((1 / 10 ^ 4 - epsQ : ℚ)) : ℝ) = 1 / 10 ^ 4 - epsR := by
      unfold epsR
      push_cast
      ring
    rw [← hcast] at hQ
    have : ((msq ch : ℝ)) < (((1 / 10 ^ 4 - epsQ : ℚ) ^ 2 : ℚ) : ℝ) := by
      push_cast at hQ ⊢
      convert hQ using 2
    exact_mod_cast this

theorem pkVal_lt_iff (ch : List ℚ) : maxAbs ch < 1 / 10 ^ 3 - epsQ ↔ pkVal ch < -60 := by
  have hma : (0:ℝ) ≤ ((maxAbs ch : ℝ)) := by exact_mod_cast maxAbs_nonneg ch
  have hx : (0:ℝ) < ((maxAbs ch : ℝ)) + epsR := by linarith [epsR_pos]
  have hc : ((10:ℝ) : ℝ) ^ (-3 : ℝ) = 1 / 10 ^ 3 := by
    rw [Real.rpow_neg (by norm_num), ← Real.rpow_natCast 10 3]
    norm_num
  have hcast : (((1 / 10 ^ 3 - epsQ : ℚ)) : ℝ) = 1 / 10 ^ 3 - epsR := by
    unfold epsR
    push_cast
    ring
  constructor
  · intro h
    have hQ : ((maxAbs ch : ℝ)) < 1 / 10 ^ 3 - epsR := by
      rw [← hcast]
      exact_mod_cast h
    have hlt : ((maxAbs ch : ℝ)) + epsR < (10:ℝ) ^ (-3 : ℝ) := by
      rw [hc]
      linarith
    have := (Real.logb_lt_iff_lt_rpow (by norm_num) hx).mpr hlt
    unfold pkVal
    linarith
  · intro h
    unfold pkVal at h
    have hlog : Real.logb 10 (((maxAbs ch : ℝ)) + epsR) < -3 := by linarith
    have hlt := (Real.logb_lt_iff_lt_rpow (by norm_num) hx).mp hlog
    rw [hc] at hlt
    have hQ : ((maxAbs ch : ℝ)) < 1 / 10 ^ 3 - epsR := by linarith
    rw [← hcast] at hQ
    exact_mod_cast hQ

theorem silentTest_iff (ch : List ℚ) :
    silentTest ch = true ↔ (rmsVal ch < -80 ∨ pkVal ch < -60) := by
  unfold silentTest
  rw [Bool.or_eq_true, decide_eq_true_eq, decide_eq_true_eq, rmsVal_lt_iff, pkVal_lt_iff]

theorem timeGate_iff (y : List ℚ) (sr : ℕ) : timeGate y sr = true ↔ TimeConds y sr := by
  unfold timeGate TimeConds
  simp only [Bool.and_eq_true, decide_eq_true_eq]
  have hpos : ∀ e ∈ posFrames y sr, (0:ℚ) ≤ e := fun e he => le_of_lt (posFrames_pos he)
  have h10 : 0 ≤ npPercentile (posFrames y sr) 10 := npPercentile_nonneg hpos 10
  have h90 : 0 ≤ npPercentile (posFrames y sr) 90 := npPercentile_nonneg hpos 90
  have ha : (0:ℝ) < ((npPercentile (posFrames y sr) 10 : ℝ)) + epsR := by
    have : (0:ℝ) ≤ ((npPercentile (posFrames y sr) 10 : ℝ)) := by exact_mod_cast h10
    linarith [epsR_pos]
  have hb : (0:ℝ) < ((npPercentile (posFrames y sr) 90 : ℝ)) + epsR := by
    have : (0:ℝ) ≤ ((npPercentile (posFrames y sr) 90 : ℝ)) := by exact_mod_cast h90
    linarith [epsR_pos]
  have hdyn : 1000 * (npPercentile (posFrames y sr) 10 + epsQ) ^ 5 ≤
      (npPercentile (posFrames y sr) 90 + epsQ) ^ 5 ↔
      6 ≤ 10 * Real.logb 10
        ((((npPercentile (posFrames y sr) 90 : ℝ)) + epsR) /
          (((npPercentile (posFrames y sr) 10 : ℝ)) + epsR)) := by
    rw [← dyn_iff ha hb]
    constructor
    · intro h
      have hR := (Rat.cast_le (K := ℝ)).mpr h
      push_cast at hR
      unfold epsR
      convert hR using 2
    · intro h
      have : ((1000 * (npPercentile (posFrames y sr) 10 + epsQ) ^ 5 : ℚ) : ℝ) ≤
          (((npPercentile (posFrames y sr) 90 + epsQ) ^ 5 : ℚ) : ℝ) := by
        push_cast
        unfold epsR at h
        convert h using 2
      exact_mod_cast this
  constructor
  · rintro ⟨⟨⟨ha10, hd⟩, hl⟩, hh⟩
    exact ⟨ha10, hdyn.mp hd, hl, hh⟩
  · rintro ⟨ha10, hd, hl, hh⟩
    exact ⟨⟨⟨ha10, hdyn.mpr hd⟩, hl⟩, hh⟩

/-! ## All-zero and scaling lemmas for the level metrics -/

theorem maxAbs_eq_zero {y : List ℚ} (h : ∀ x ∈ y, x = 0) : maxAbs y = 0 := by
  unfold maxAbs
  induction y with
  | nil => rfl
  | cons a t ih =>
    have ha : a = 0 := h a (by simp)
    have ht := ih fun x hx => h x (List.mem_cons_of_mem _ hx)
    simp only [List.map_cons, List.foldr_cons]
    rw [ha, ht]
    simp

theorem getD_zero {y : List ℚ} (h : ∀ x ∈ y, x = 0) (i : ℕ) : y.getD i 0 = 0 := by
  by_cases hi : i < y.length
  · rw [getD_eq_get y i hi]
    exact h _ (y.get_mem _ _)
  · rw [List.getD_eq_default _ _ (le_of_not_lt hi)]

theorem interpAt_zero {y : List ℚ} (h : ∀ x ∈ y, x = 0) (t : ℚ) : interpAt y t = 0 := by
  simp only [interpAt]
  rw [getD_zero h, getD_zero h]
  ring

theorem truePeakLin_zero {y : List ℚ} (h : ∀ x ∈ y, x = 0) (os : ℕ) :
    truePeakLin y os = 0 := by
  unfold truePeakLin
  have hm := maxAbs_eq_zero h
  have hu : maxAbs (upsampled y os) = 0 := by
    apply maxAbs_eq_zero
    intro x hx
    obtain ⟨i, _, rfl⟩ := List.mem_map.mp hx
    exact interpAt_zero h _
  split
  · rw [hm, hu]
    simp
  · exact hm

theorem msq_eq_zero {y : List ℚ} (h : ∀ x ∈ y, x = 0) : msq y = 0 := by
  unfold msq qmean
  have : (y.map fun a => a ^ 2).sum = 0 := by
    apply List.sum_eq_zero
    intro x hx
    obtain ⟨a, ha, rfl⟩ := List.mem_map.mp hx
    rw [h a ha]
    ring
  rw [this]
  simp

theorem maxAbs_le_truePeakLin (y : List ℚ) (os : ℕ) : maxAbs y ≤ truePeakLin y os := by
  unfold truePeakLin
  split
  · exact le_max_left _ _
  · exact le_refl _

theorem maxAbs_qscale {k : ℚ} (hk : 0 ≤ k) (y : List ℚ) :
    maxAbs (qscale k y) = k * maxAbs y := by
  unfold maxAbs qscale
  induction y with
  | nil => simp
  | cons a t ih =>
    simp only [List.map_cons, List.foldr_cons]
    rw [ih, abs_mul, abs_of_nonneg hk, mul_max_of_nonneg _ _ hk]

theorem msq_qscale (k : ℚ) (y : List ℚ) : msq (qscale k y) = k ^ 2 * msq y := by
  unfold msq qmean qscale
  have h1 : ((y.map fun a => k * a).map fun a => a ^ 2) = y.map fun a => k ^ 2 * a ^ 2 := by
    rw [List.map_map]
    congr 1
    funext a
    simp only [Function.comp_apply]
    ring
  rw [h1, List.sum_map_mul_left]
  simp [List.length_map, mul_div_assoc]

theorem maxAbs_pos {y : List ℚ} {x : ℚ} (hxy : x ∈ y) (hx : x ≠ 0) : 0 < maxAbs y :=
  lt_of_lt_of_le (abs_pos.mpr hx) (abs_le_maxAbs hxy)

theorem msq_pos {y : List ℚ} {x : ℚ} (hxy : x ∈ y) (hx : x ≠ 0) : 0 < msq y := by
  have hx2 : x ^ 2 ∈ y.map fun a => a ^ 2 := List.mem_map_of_mem _ hxy
  have hnn : ∀ z ∈ y.map fun a => a ^ 2, (0:ℚ) ≤ z := by
    intro z hz
    obtain ⟨a, _, rfl⟩ := List.mem_map.mp hz
    positivity
  have hsum : x ^ 2 ≤ (y.map fun a => a ^ 2).sum := List.single_le_sum hnn _ hx2
  have hlen : (0:ℚ) < y.length := by
    have := List.length_pos.mpr (List.ne_nil_of_mem hxy)
    exact_mod_cast this
  have hx2pos : (0:ℚ) < x ^ 2 := by positivity
  unfold msq qmean
  rw [List.length_map]
  exact div_pos (lt_of_lt_of_le hx2pos hsum) hlen

/-- The dB gain of the guarded logarithm under scaling: for m > 0 and
k > 1, log10(k*m + eps) - log10(m + eps) is strictly between 0 and
log10(k). -/
theorem logb_gain {m kr : ℝ} (hm : 0 < m) (hk : 1 < kr) :
    0 < Real.logb 10 (kr * m + epsR) - Real.logb 10 (m + epsR) ∧
    Real.logb 10 (kr * m + epsR) - Real.logb 10 (m + epsR) < Real.logb 10 kr := by
  have heps := epsR_pos
  have hA : 0 < m + epsR := by linarith
  have hB : 0 < kr * m + epsR := by nlinarith
  constructor
  · have hlt : m + epsR < kr * m + epsR := by nlinarith
    have hstep : Real.logb 10 (m + epsR) < Real.logb 10 (kr * m + epsR) :=
      Real.logb_lt_logb (by norm_num) hA hlt
    linarith
  · have hlt : kr * m + epsR < kr * (m + epsR) := by nlinarith
    have hmul : Real.logb 10 (kr * (m + epsR)) = Real.logb 10 kr + Real.logb 10 (m + epsR) :=
      Real.logb_mul (by linarith) (ne_of_gt hA)
    have hstep : Real.logb 10 (kr * m + epsR) < Real.logb 10 (kr * (m + epsR)) :=
      Real.logb_lt_logb (by norm_num) hB hlt
    rw [hmul] at hstep
    linarith

/-! ## Claim C6: a buffer shorter than 0.5 s yields SNR NA -/

/-- C6: for every buffer with fewer than int(0.5*sr) samples, snr_db
returns NA. -/
theorem snr_short_buffer (y : List ℚ) (sr : ℕ) (h : y.length < sr / 2) :
    snr_db y sr = none := by
  unfold snr_db
  rw [if_pos h]

/-- Witness for snr_short_buffer at a one-sample buffer and sr = 48000. -/
theorem snr_short_buffer_witness :
    [(1:ℚ)].length < 48000 / 2 ∧ snr_db [(1:ℚ)] 48000 = none :=
  ⟨by norm_num, snr_short_buffer [(1:ℚ)] 48000 (by norm_num)⟩

/-! ## Claim C8: zero-length and all-zero buffers -/

/-- C8 counterexample: on the zero-length buffer the claim fails: peak_dbfs
raises ValueError (np.max of an empty array) and rms_dbfs is NaN (np.mean of
an empty array), so neither returns the floor value 20*log10(1e-12);
true_peak_dbfs does return NA. -/
theorem zero_length_counterexample :
    peak_dbfs ([] : List ℚ) = .error valueError ∧
    rms_dbfs ([] : List ℚ) = Fl.nan ∧
    true_peak_dbfs ([] : List ℚ) 48000 4 = none ∧
    peak_dbfs ([] : List ℚ) ≠ .ok (20 * Real.logb 10 epsR) ∧
    rms_dbfs ([] : List ℚ) ≠ Fl.fin (20 * Real.logb 10 epsR) := by
  refine ⟨rfl, rfl, rfl, ?_, ?_⟩
  · simp [peak_dbfs]
  · simp [rms_dbfs]

/-- C8 as amended: every all-zero buffer of length at least 1 yields
true_peak_dbfs NA and peak_dbfs, rms_dbfs at the finite floor
20*log10(1e-12); the zero-length behaviour is the counterexample above. -/
theorem allzero_floor (y : List ℚ) (sr os : ℕ) (hz : ∀ x ∈ y, x = 0) (hne : y ≠ []) :
    true_peak_dbfs y sr os = none ∧
    peak_dbfs y = .ok (20 * Real.logb 10 epsR) ∧
    rms_dbfs y = Fl.fin (20 * Real.logb 10 epsR) := by
  have hlen : y.length ≠ 0 := fun h => hne (List.length_eq_zero.mp h)
  have hma := maxAbs_eq_zero hz
  have hms := msq_eq_zero hz
  refine ⟨?_, ?_, ?_⟩
  · unfold true_peak_dbfs
    rw [if_neg hlen, truePeakLin_zero hz, if_pos (le_refl 0)]
  · unfold peak_dbfs pkVal
    rw [if_neg hlen, hma]
    norm_num
  · unfold rms_dbfs rmsVal
    rw [if_neg hlen, hms]
    norm_num

/-- Witness for allzero_floor at the two-sample zero buffer. -/
theorem allzero_floor_witness :
    ((∀ x ∈ [(0:ℚ), 0], x = 0) ∧ [(0:ℚ), 0] ≠ []) ∧
    (true_peak_dbfs [(0:ℚ), 0] 48000 4 = none ∧
     peak_dbfs [(0:ℚ), 0] = .ok (20 * Real.logb 10 epsR) ∧
     rms_dbfs [(0:ℚ), 0] = Fl.fin (20 * Real.logb 10 epsR)) :=
  ⟨⟨by simp, by simp⟩, allzero_floor [(0:ℚ), 0] 48000 4 (by simp) (by simp)⟩

/-! ## Claim C2: true peak versus sample peak -/

/-- C2 counterexample: on the one-sample buffer of amplitude 1,
true_peak_dbfs is exactly 0 dBFS while peak_dbfs is 20*log10(1 + 1e-12),
which is strictly positive: true_peak_dbfs < peak_dbfs, refuting the claim
that the oversampled true peak is never lower. -/
theorem true_peak_lt_peak_counterexample :
    true_peak_dbfs [(1:ℚ)] 48000 4 = some 0 ∧
    peak_dbfs [(1:ℚ)] = .ok (20 * Real.logb 10 (1 + epsR)) ∧
    (0:ℝ) < 20 * Real.logb 10 (1 + epsR) := by
  refine ⟨?_, ?_, ?_⟩
  · unfold true_peak_dbfs truePeakLin maxAbs
    norm_num [Real.logb_one]
  · unfold peak_dbfs pkVal maxAbs
    norm_num
  · exact mul_pos (by norm_num) (Real.logb_pos (by norm_num) (by linarith [epsR_pos]))

/-- C2 as amended: whenever the buffer has positive sample peak,
true_peak_dbfs is defined and is at least the sample-domain peak in dB
computed without the 1e-12 guard, 20*log10(max|y|); the original claim fails
only by the guard offset that peak_dbfs adds before taking the logarithm. -/
theorem true_peak_ge_sample_peak (y : List ℚ) (sr os : ℕ) (hpos : 0 < maxAbs y) :
    true_peak_dbfs y sr os = some (20 * Real.logb 10 ((truePeakLin y os : ℝ))) ∧
    20 * Real.logb 10 ((maxAbs y : ℝ)) ≤ 20 * Real.logb 10 ((truePeakLin y os : ℝ)) := by
  have htp : 0 < truePeakLin y os := lt_of_lt_of_le hpos (maxAbs_le_truePeakLin y os)
  have hlen : y.length ≠ 0 := by
    intro h
    rw [List.length_eq_zero.mp h] at hpos
    exact absurd hpos (by norm_num [maxAbs])
  constructor
  · unfold true_peak_dbfs
    rw [if_neg hlen, if_neg (not_le.mpr htp)]
  · apply mul_le_mul_of_nonneg_left _ (by norm_num : (0:ℝ) ≤ 20)
    apply Real.logb_le_logb_of_le (by norm_num)
    · exact_mod_cast hpos
    · exact_mod_cast maxAbs_le_truePeakLin y os

/-- Witness for true_peak_ge_sample_peak at the buffer of amplitude 2. -/
theorem true_peak_ge_sample_peak_witness :
    0 < maxAbs [(2:ℚ)] ∧
    (true_peak_dbfs [(2:ℚ)] 48000 4 = some (20 * Real.logb 10 ((truePeakLin [(2:ℚ)] 4 : ℝ))) ∧
     20 * Real.logb 10 ((maxAbs [(2:ℚ)] : ℝ)) ≤
       20 * Real.logb 10 ((truePeakLin [(2:ℚ)] 4 : ℝ))) :=
  ⟨by norm_num [maxAbs], true_peak_ge_sample_peak [(2:ℚ)] 48000 4 (by norm_num [maxAbs])⟩

/-! ## Claim C7: dB gain under amplitude scaling -/

/-- C7 counterexample: on the all-zero one-sample buffer and k = 2, scaling
changes neither peak_dbfs nor rms_dbfs (the increase is 0), while the claim
demands an increase of 20*log10(2) > 0 dB. -/
theorem scale_gain_counterexample :
    peak_dbfs (qscale 2 [(0:ℚ)]) = peak_dbfs [(0:ℚ)] ∧
    rms_dbfs (qscale 2 [(0:ℚ)]) = rms_dbfs [(0:ℚ)] ∧
    (0:ℝ) < 20 * Real.logb 10 (((2:ℚ) : ℝ)) := by
  have h : qscale 2 [(0:ℚ)] = [(0:ℚ)] := by norm_num [qscale]
  refine ⟨by rw [h], by rw [h], ?_⟩
  have h2 : (((2:ℚ)) : ℝ) = 2 := by norm_num
  rw [h2]
  exact mul_pos (by norm_num) (Real.logb_pos (by norm_num) (by norm_num))

/-- C7 as amended: for every buffer with a nonzero sample and every factor
k > 1, peak_dbfs and rms_dbfs strictly increase under scaling by k, each by
strictly less than 20*log10(k) (the shortfall is caused by the 1e-12 guard
inside the logarithms), and crest_db changes by strictly less than
20*log10(k) in absolute value rather than staying exactly constant. -/
theorem scale_gain_bounds (y : List ℚ) (k : ℚ) (hk : 1 < k) (hy : ∃ x ∈ y, x ≠ 0) :
    ∃ dp dr : ℝ,
      peak_dbfs (qscale k y) = .ok (pkVal y + dp) ∧
      rms_dbfs (qscale k y) = Fl.fin (rmsVal y + dr) ∧
      0 < dp ∧ dp < 20 * Real.logb 10 ((k : ℝ)) ∧
      0 < dr ∧ dr < 20 * Real.logb 10 ((k : ℝ)) ∧
      |crest_db (pkVal (qscale k y)) (rmsVal (qscale k y)) -
          crest_db (pkVal y) (rmsVal y)| < 20 * Real.logb 10 ((k : ℝ)) := by
  obtain ⟨x, hxy, hx0⟩ := hy
  have hk0 : (0:ℚ) < k := lt_trans zero_lt_one hk
  have hkR : (1:ℝ) < (k : ℝ) := by exact_mod_cast hk
  have hm : 0 < maxAbs y := maxAbs_pos hxy hx0
  have hmR : (0:ℝ) < ((maxAbs y : ℝ)) := by exact_mod_cast hm
  have hms : 0 < msq y := msq_pos hxy hx0
  have hmsR : (0:ℝ) < ((msq y : ℝ)) := by exact_mod_cast hms
  have hr : (0:ℝ) < Real.sqrt ((msq y : ℝ)) := Real.sqrt_pos.mpr hmsR
  have hne : y ≠ [] := List.ne_nil_of_mem hxy
  have hlen : y.length ≠ 0 := fun h => hne (List.length_eq_zero.mp h)
  have hlen2 : (qscale k y).length ≠ 0 := by
    unfold qscale
    rwa [List.length_map]
  -- the scaled linear peak and linear rms
  have hmax : ((maxAbs (qscale k y) : ℝ)) = (k : ℝ) * ((maxAbs y : ℝ)) := by
    rw [maxAbs_qscale hk0.le]
    push_cast
    ring
  have hsqrt : Real.sqrt ((msq (qscale k y) : ℝ)) = (k : ℝ) * Real.sqrt ((msq y : ℝ)) := by
    rw [msq_qscale]
    push_cast
    rw [Real.sqrt_mul (by positivity) _]
    congr 1
    rw [Real.sqrt_sq (by positivity)]
  obtain ⟨hp1, hp2⟩ := logb_gain hmR hkR
  obtain ⟨hr1, hr2⟩ := logb_gain hr hkR
  refine ⟨20 * (Real.logb 10 ((k : ℝ) * ((maxAbs y : ℝ)) + epsR) -
      Real.logb 10 (((maxAbs y : ℝ)) + epsR)),
    20 * (Real.logb 10 ((k : ℝ) * Real.sqrt ((msq y : ℝ)) + epsR) -
      Real.logb 10 (Real.sqrt ((msq y : ℝ)) + epsR)), ?_, ?_, ?_, ?_, ?_, ?_, ?_⟩
  · unfold peak_dbfs
    rw [if_neg hlen2]
    unfold pkVal
    rw [hmax]
    congr 1
    ring
  · unfold rms_dbfs
    rw [if_neg hlen2]
    unfold rmsVal
    rw [hsqrt]
    congr 1
    ring
  · linarith
  · linarith
  · linarith
  · linarith
  · have hcp : pkVal (qscale k y) = pkVal y +
        20 * (Real.logb 10 ((k : ℝ) * ((maxAbs y : ℝ)) + epsR) -
          Real.logb 10 (((maxAbs y : ℝ)) + epsR)) := by
      unfold pkVal
      rw [hmax]
      ring
    have hcr : rmsVal (qscale k y) = rmsVal y +
        20 * (Real.logb 10 ((k : ℝ) * Real.sqrt ((msq y : ℝ)) + epsR) -
          Real.logb 10 (Real.sqrt ((msq y : ℝ)) + epsR)) := by
      unfold rmsVal
      rw [hsqrt]
      ring
    unfold crest_db
    rw [hcp, hcr]
    rw [abs_lt]
    constructor <;> nlinarith

/-- Witness for scale_gain_bounds at the buffer of amplitude 1 and k = 2. -/
theorem scale_gain_bounds_witness :
    (1:ℚ) < 2 ∧ (∃ x ∈ [(1:ℚ)], x ≠ 0) ∧
    (∃ dp dr : ℝ,
      peak_dbfs (qscale 2 [(1:ℚ)]) = .ok (pkVal [(1:ℚ)] + dp) ∧
      rms_dbfs (qscale 2 [(1:ℚ)]) = Fl.fin (rmsVal [(1:ℚ)] + dr) ∧
      0 < dp ∧ dp < 20 * Real.logb 10 (((2:ℚ) : ℝ)) ∧
      0 < dr ∧ dr < 20 * Real.logb 10 (((2:ℚ) : ℝ)) ∧
      |crest_db (pkVal (qscale 2 [(1:ℚ)])) (rmsVal (qscale 2 [(1:ℚ)])) -
          crest_db (pkVal [(1:ℚ)]) (rmsVal [(1:ℚ)])| < 20 * Real.logb 10 (((2:ℚ) : ℝ))) :=
  ⟨by norm_num, ⟨1, by simp, by norm_num⟩,
    scale_gain_bounds [(1:ℚ)] 2 (by norm_num) ⟨1, by simp, by norm_num⟩⟩

/-! ## Concrete evaluation of the time-domain SNR machinery on y0 -/

theorem y0_frames : posFrames y0 20 = [1, 1, 1, 1, 1, 4, 4, 4, 4, 4] := by
  have hr : List.range 10 = [0, 1, 2, 3, 4, 5, 6, 7, 8, 9] := by decide
  norm_num [posFrames, frameEnergies, y0, msq, qmean, hr, List.drop, List.take, List.filter]

theorem y0_gate : timeGate y0 20 = true := by
  simp only [timeGate, y0_frames]
  norm_num [npPercentile, sortQ, List.insertionSort, List.orderedInsert, List.getD,
    List.countP, List.countP.go, epsQ]

theorem y0_arg : snrTimeArg y0 20 = (4 + epsQ) / (1 + epsQ) := by
  simp only [snrTimeArg, y0_frames]
  norm_num [npPercentile, sortQ, List.insertionSort, List.orderedInsert, List.getD,
    List.filter, qmean]

theorem y0_snr : snr_db y0 20 = some (10 * Real.logb 10 ((((4 + epsQ) / (1 + epsQ) : ℚ)) : ℝ)) := by
  unfold snr_db
  rw [if_neg (by norm_num [y0] : ¬ (y0.length < 20 / 2)), if_pos y0_gate, y0_arg]

/-! ## Claim C1: the time-domain percentile path of snr_db -/

/-- C1 counterexample: for the buffer y0 at sr = 20 the time-domain path
fires, the mean energy of the frames at or above the 80th percentile is 4
and the mean energy of the frames at or below the 20th percentile is 1, yet
snr_db does not return 10*log10(4/1): the code returns
10*log10((4 + 1e-12)/(1 + 1e-12)), which is a different real number. -/
theorem snr_time_formula_counterexample :
    qmean ((posFrames y0 20).filter fun e =>
        decide (npPercentile (posFrames y0 20) 80 ≤ e)) = 4 ∧
    qmean ((posFrames y0 20).filter fun e =>
        decide (e ≤ npPercentile (posFrames y0 20) 20)) = 1 ∧
    snr_db y0 20 ≠ some (10 * Real.logb 10 ((4:ℝ) / 1)) := by
  refine ⟨?_, ?_, ?_⟩
  · rw [y0_frames]
    norm_num [npPercentile, sortQ, List.insertionSort, List.orderedInsert, List.getD,
      List.filter, qmean]
  · rw [y0_frames]
    norm_num [npPercentile, sortQ, List.insertionSort, List.orderedInsert, List.getD,
      List.filter, qmean]
  · rw [y0_snr]
    have hlt : ((((4 + epsQ) / (1 + epsQ) : ℚ)) : ℝ) < 4 := by
      have h : ((4 + epsQ) / (1 + epsQ) : ℚ) < 4 := by norm_num [epsQ]
      exact_mod_cast h
    have hpos : (0:ℝ) < ((((4 + epsQ) / (1 + epsQ) : ℚ)) : ℝ) := by
      have h : (0:ℚ) < (4 + epsQ) / (1 + epsQ) := by norm_num [epsQ]
      exact_mod_cast h
    have hlog : Real.logb 10 ((((4 + epsQ) / (1 + epsQ) : ℚ)) : ℝ) < Real.logb 10 4 :=
      Real.logb_lt_logb (by norm_num) hpos hlt
    simp only [ne_eq, Option.some.injEq]
    rw [show ((4:ℝ) / 1) = 4 by norm_num]
    intro h
    linarith

open Classical in
/-- C1 as amended: for every buffer of length at least 0.5*sr, snr_db takes
the time-domain percentile path exactly when the spec conditions TimeConds
hold (at least 10 surviving frames, at least 6 dB of dynamic range between
the 90th and 10th energy percentiles, and at least 5 frames in each tail),
returning 10*log10((mean(frames >= p80) + 1e-12)/(mean(frames <= p20) + 1e-12))
- the two 1e-12 guards being the amendment - and otherwise the time-domain
path yields no value and the spectral fallback is evaluated. -/
theorem snr_time_path (y : List ℚ) (sr : ℕ) (hlen : sr ≤ 2 * y.length) :
    snr_db y sr =
      if TimeConds y sr then
        some (10 * Real.logb 10
          (((qmean ((posFrames y sr).filter fun e =>
              decide (npPercentile (posFrames y sr) 80 ≤ e)) : ℝ) + epsR) /
           ((qmean ((posFrames y sr).filter fun e =>
              decide (e ≤ npPercentile (posFrames y sr) 20)) : ℝ) + epsR)))
      else snrSpectral y := by
  have hguard : ¬ (y.length < sr / 2) := by omega
  have hcast : ((snrTimeArg y sr : ℝ)) =
      ((qmean ((posFrames y sr).filter fun e =>
          decide (npPercentile (posFrames y sr) 80 ≤ e)) : ℝ) + epsR) /
      ((qmean ((posFrames y sr).filter fun e =>
          decide (e ≤ npPercentile (posFrames y sr) 20)) : ℝ) + epsR) := by
    simp only [snrTimeArg, epsR]
    push_cast
    ring
  unfold snr_db
  rw [if_neg hguard]
  by_cases h : TimeConds y sr
  · rw [if_pos ((timeGate_iff y sr).mpr h), if_pos h, hcast]
  · rw [if_neg (fun hb => h ((timeGate_iff y sr).mp hb)), if_neg h]

open Classical in
/-- Witness for snr_time_path at the buffer y0 and sr = 20, where the
spec conditions hold and the time-domain value is returned. -/
theorem snr_time_path_witness :
    20 ≤ 2 * y0.length ∧
    (snr_db y0 20 =
      if TimeConds y0 20 then
        some (10 * Real.logb 10
          (((qmean ((posFrames y0 20).filter fun e =>
              decide (npPercentile (posFrames y0 20) 80 ≤ e)) : ℝ) + epsR) /
           ((qmean ((posFrames y0 20).filter fun e =>
              decide (e ≤ npPercentile (posFrames y0 20) 20)) : ℝ) + epsR)))
      else snrSpectral y0) :=
  ⟨by norm_num [y0], snr_time_path y0 20 (by norm_num [y0])⟩

/-! ## Claim C10: the time-domain SNR value is nonnegative -/

/-- C10: whenever snr_db returns through the time-domain percentile path,
the mean energy of the frames at or above the 80th percentile is at least
the mean energy of the frames at or below the 20th percentile, and the
returned value 10*log10((mean_high + 1e-12)/(mean_low + 1e-12)) is
nonnegative. -/
theorem snr_time_nonneg (y : List ℚ) (sr : ℕ) (hguard : sr / 2 ≤ y.length)
    (hgate : timeGate y sr = true) :
    snr_db y sr = some (10 * Real.logb 10 ((snrTimeArg y sr : ℝ))) ∧
    qmean ((posFrames y sr).filter fun e =>
        decide (e ≤ npPercentile (posFrames y sr) 20)) ≤
      qmean ((posFrames y sr).filter fun e =>
        decide (npPercentile (posFrames y sr) 80 ≤ e)) ∧
    0 ≤ 10 * Real.logb 10 ((snrTimeArg y sr : ℝ)) := by
  have hg := hgate
  simp only [timeGate, Bool.and_eq_true, decide_eq_true_eq] at hg
  obtain ⟨⟨⟨h10, hdyn⟩, hlow⟩, hhigh⟩ := hg
  have hFne : posFrames y sr ≠ [] := by
    intro h
    rw [h] at h10
    simp at h10
  have hLolen : 5 ≤ ((posFrames y sr).filter fun e =>
      decide (e ≤ npPercentile (posFrames y sr) 20)).length := by
    rwa [List.countP_eq_length_filter] at hlow
  have hHilen : 5 ≤ ((posFrames y sr).filter fun e =>
      decide (npPercentile (posFrames y sr) 80 ≤ e)).length := by
    rwa [List.countP_eq_length_filter] at hhigh
  have hLone : ((posFrames y sr).filter fun e =>
      decide (e ≤ npPercentile (posFrames y sr) 20)) ≠ [] := by
    intro h
    rw [h] at hLolen
    simp at hLolen
  have hHine : ((posFrames y sr).filter fun e =>
      decide (npPercentile (posFrames y sr) 80 ≤ e)) ≠ [] := by
    intro h
    rw [h] at hHilen
    simp at hHilen
  have hmeanLo : qmean ((posFrames y sr).filter fun e =>
      decide (e ≤ npPercentile (posFrames y sr) 20)) ≤ npPercentile (posFrames y sr) 20 := by
    apply qmean_le hLone
    intro x hx
    exact of_decide_eq_true (List.mem_filter.mp hx).2
  have hmeanHi : npPercentile (posFrames y sr) 80 ≤
      qmean ((posFrames y sr).filter fun e =>
        decide (npPercentile (posFrames y sr) 80 ≤ e)) := by
    apply le_qmean hHine
    intro x hx
    exact of_decide_eq_true (List.mem_filter.mp hx).2
  have hp : npPercentile (posFrames y sr) 20 ≤ npPercentile (posFrames y sr) 80 :=
    npPercentile_mono hFne (by norm_num) (by norm_num)
  have hmeans : qmean ((posFrames y sr).filter fun e =>
      decide (e ≤ npPercentile (posFrames y sr) 20)) ≤
      qmean ((posFrames y sr).filter fun e =>
        decide (npPercentile (posFrames y sr) 80 ≤ e)) := by linarith
  have hLo0 : 0 ≤ qmean ((posFrames y sr).filter fun e =>
      decide (e ≤ npPercentile (posFrames y sr) 20)) := by
    apply qmean_nonneg
    intro x hx
    exact le_of_lt (posFrames_pos (List.mem_filter.mp hx).1)
  have harg : (1:ℚ) ≤ snrTimeArg y sr := by
    simp only [snrTimeArg]
    rw [le_div_iff₀ (by linarith [epsQ_pos])]
    linarith
  have hargR : (1:ℝ) ≤ ((snrTimeArg y sr : ℝ)) := by exact_mod_cast harg
  refine ⟨?_, hmeans, ?_⟩
  · unfold snr_db
    rw [if_neg (not_lt.mpr hguard), if_pos hgate]
  · have hlb : (0:ℝ) ≤ Real.logb 10 ((snrTimeArg y sr : ℝ)) :=
      Real.logb_nonneg (by norm_num) hargR
    linarith

/-- Witness for snr_time_nonneg at the buffer y0 and sr = 20. -/
theorem snr_time_nonneg_witness :
    20 / 2 ≤ y0.length ∧ timeGate y0 20 = true ∧
    (snr_db y0 20 = some (10 * Real.logb 10 ((snrTimeArg y0 20 : ℝ))) ∧
     qmean ((posFrames y0 20).filter fun e =>
         decide (e ≤ npPercentile (posFrames y0 20) 20)) ≤
       qmean ((posFrames y0 20).filter fun e =>
         decide (npPercentile (posFrames y0 20) 80 ≤ e)) ∧
     0 ≤ 10 * Real.logb 10 ((snrTimeArg y0 20 : ℝ))) :=
  ⟨by norm_num [y0], y0_gate, snr_time_nonneg y0 20 (by norm_num [y0]) y0_gate⟩

/-! ## Claim C9: per-channel silence detection -/

/-- C9: for a multi-channel buffer with nonempty channels (on an empty
channel per_channel_metrics raises before reaching silence detection),
channel index i is flagged silent exactly when its RMS is below -80 dBFS or
its peak is below -60 dBFS, and silent_channels lists the flagged indices in
strictly ascending order without duplicates. -/
theorem silent_channels_spec (chs : List (List ℚ)) (h : ∀ ch ∈ chs, ch ≠ []) :
    (∀ i, i ∈ silent_channels chs ↔
      (i < chs.length ∧ (rmsVal (chs.getD i []) < -80 ∨ pkVal (chs.getD i []) < -60))) ∧
    (silent_channels chs).Sorted (· < ·) ∧ (silent_channels chs).Nodup := by
  refine ⟨?_, ?_, ?_⟩
  · intro i
    unfold silent_channels
    rw [List.mem_filter, List.mem_range]
    constructor
    · rintro ⟨hi, ht⟩
      exact ⟨hi, (silentTest_iff _).mp ht⟩
    · rintro ⟨hi, ht⟩
      exact ⟨hi, (silentTest_iff _).mpr ht⟩
  · exact List.Pairwise.sublist (List.filter_sublist _) (List.pairwise_lt_range _)
  · exact List.Nodup.filter _ (List.nodup_range _)

/-- Witness for silent_channels_spec at the stereo buffer chs0. -/
theorem silent_channels_spec_witness :
    (∀ ch ∈ chs0, ch ≠ []) ∧
    ((∀ i, i ∈ silent_channels chs0 ↔
      (i < chs0.length ∧ (rmsVal (chs0.getD i []) < -80 ∨ pkVal (chs0.getD i []) < -60))) ∧
     (silent_channels chs0).Sorted (· < ·) ∧ (silent_channels chs0).Nodup) :=
  ⟨by simp [chs0], silent_channels_spec chs0 (by simp [chs0])⟩

/-! ## Claim C4: the exception policy of the loudness block -/

/-- C4: for every meter outcome, when the integrated-loudness call succeeds,
r128_loudness_and_lra succeeds, and an exception in the short-term,
momentary or loudness-range call makes the corresponding component NA; when
the integrated-loudness call raises, the exception propagates out of
r128_loudness_and_lra and out of analyze_file for the primary mono buffer. -/
theorem r128_error_policy :
    (∀ (m : MeterOut) (Li : Fl), m.integrated = .ok Li →
      ∃ Ls Lm LRA, r128_loudness_and_lra m = .ok (Li, Ls, Lm, LRA) ∧
        ((∃ e, m.shortterm = .error e) → Ls = none) ∧
        ((∃ e, m.momentary = .error e) → Lm = none) ∧
        ((∃ e, m.lrange = .error e) → LRA = none)) ∧
    (∀ (y : List ℚ) (sr : ℕ) (m : MeterOut) (e : PyErr), y ≠ [] →
      m.integrated = .error e →
      r128_loudness_and_lra m = .error e ∧ analyze_file y sr m = .error e) := by
  constructor
  · intro m Li hint
    refine ⟨(match m.shortterm with | .error _ => none | .ok s => p95 s),
      (match m.momentary with | .error _ => none | .ok s => p95 s),
      (match m.lrange with | .error _ => none | .ok v => v.toReal?), ?_, ?_, ?_, ?_⟩
    · unfold r128_loudness_and_lra
      rw [hint]
    · rintro ⟨e, he⟩
      rw [he]
    · rintro ⟨e, he⟩
      rw [he]
    · rintro ⟨e, he⟩
      rw [he]
  · intro y sr m e hy hint
    constructor
    · unfold r128_loudness_and_lra
      rw [hint]
    · unfold analyze_file
      rw [if_neg (fun h => hy (List.length_eq_zero.mp h))]
      unfold r128_loudness_and_lra
      rw [hint]

/-- Witness for r128_error_policy at the meter outcomes mA (integrated
succeeds, everything else raises: all three optional components are NA) and
mB (integrated raises: the error value 7 propagates). -/
theorem r128_error_policy_witness :
    mA.integrated = .ok (.fin (-23)) ∧ mB.integrated = .error ⟨7⟩ ∧
    r128_loudness_and_lra mA = .ok (.fin (-23), none, none, none) ∧
    r128_loudness_and_lra mB = .error ⟨7⟩ ∧
    analyze_file [(1:ℚ)] 48000 mB = .error ⟨7⟩ := by
  refine ⟨rfl, rfl, ?_, ?_, ?_⟩
  · obtain ⟨Ls, Lm, LRA, hr, hs, hm, hl⟩ := r128_error_policy.1 mA (.fin (-23)) rfl
    rw [hs ⟨⟨1⟩, rfl⟩, hm ⟨⟨2⟩, rfl⟩, hl ⟨⟨3⟩, rfl⟩] at hr
    exact hr
  · exact (r128_error_policy.2 [(1:ℚ)] 48000 mB ⟨7⟩ (by simp) rfl).1
  · exact (r128_error_policy.2 [(1:ℚ)] 48000 mB ⟨7⟩ (by simp) rfl).2

/-! ## Claim C5: the integrated loudness is finite and passed through -/

/-- C5: for every nonempty buffer and every meter outcome satisfying the
spec-modelled contract MeterSpec (the gated integrated loudness returns a
finite float), r128_loudness_and_lra succeeds with a finite integrated
loudness, and analyze_file returns a record whose lufs field is that finite
value; every other floating-point field of the record is real-valued
(finite) or an explicit NA by construction of the model. -/
theorem integrated_loudness_finite (y : List ℚ) (sr : ℕ) (m : MeterOut)
    (hy : y ≠ []) (hm : MeterSpec m) :
    ∃ (Li : Fl) (Ls Lm LRA : Option ℝ) (row : Row),
      r128_loudness_and_lra m = .ok (Li, Ls, Lm, LRA) ∧ Li.isFinite = true ∧
      analyze_file y sr m = .ok row ∧ row.lufs = Li := by
  obtain ⟨x, hx⟩ := hm
  refine ⟨.fin x,
    (match m.shortterm with | .error _ => none | .ok s => p95 s),
    (match m.momentary with | .error _ => none | .ok s => p95 s),
    (match m.lrange with | .error _ => none | .ok v => v.toReal?),
    { peak := pkVal y
      true_peak := true_peak_dbfs y sr 4
      rms := rmsVal y
      crest := crest_db (pkVal y) (rmsVal y)
      lufs := .fin x
      lufs_s := (match m.shortterm with | .error _ => none | .ok s => p95 s)
      lufs_m := (match m.momentary with | .error _ => none | .ok s => p95 s)
      lra := (match m.lrange with | .error _ => none | .ok v => v.toReal?)
      snr := snr_db y sr }, ?_, rfl, ?_, rfl⟩
  · unfold r128_loudness_and_lra
    rw [hx]
  · unfold analyze_file
    rw [if_neg (fun h => hy (List.length_eq_zero.mp h))]
    unfold r128_loudness_and_lra
    rw [hx]

/-- Witness for integrated_loudness_finite at the one-sample buffer and the
meter outcome mA. -/
theorem integrated_loudness_finite_witness :
    ([(1:ℚ)] ≠ []) ∧ MeterSpec mA ∧
    (∃ (Li : Fl) (Ls Lm LRA : Option ℝ) (row : Row),
      r128_loudness_and_lra mA = .ok (Li, Ls, Lm, LRA) ∧ Li.isFinite = true ∧
      analyze_file [(1:ℚ)] 48000 mA = .ok row ∧ row.lufs = Li) :=
  ⟨by simp, ⟨-23, rfl⟩, integrated_loudness_finite [(1:ℚ)] 48000 mA (by simp) ⟨-23, rfl⟩⟩

end AudioQA
